import Mathlib

/-!
# NixieClock: a shallow embedding of `src/main.cpp`

The sketch multiplexes four nixie tubes from a timer interrupt, walks every
displayed digit towards its target along the physical cathode order, and lets
three buttons cycle the display mode and nudge the clock's minutes.

Conventions of the embedding:

* `uint8_t` / `int` values are `Nat` / `Int`; a reduction `% 256` is written
  wherever the source stores a computed value into a `uint8_t` that could
  exceed a byte.
* The global arrays `nixie_val` and `nixie_set` are index-to-value maps; the
  source only ever indexes them below `N_NIXIES`.
* The Arduino output pins are a map from pin number to level (`LOW`/`HIGH`).
* The globals of the sketch are the fields of `State`; every function of the
  sketch is a function on `State`.
-/

namespace NixieClock

/-! ## Constants of the sketch -/

def SHOW_TIME : Nat := 0
def SHOW_DATE : Nat := 1
def SHOW_YEAR : Nat := 2

def N_NIXIES : Nat := 4

def NIXIE1 : Nat := 2
def NIXIE2 : Nat := 3
def NIXIE3 : Nat := 13
def NIXIE4 : Nat := 12

def DECIMAL : Nat := 9

/-- Modelled from the spec: `Arduino.h` is not part of the repository, so the
levels it defines are taken from the spec's "all binary" outputs: a pin is
either `LOW` (0) or `HIGH` (1). -/
def LOW : Nat := 0

/-- Modelled from the spec: the other of the two binary output levels. -/
def HIGH : Nat := 1

/-- Modelled from the spec: what the sketch takes from the platform headers,
which are not part of the repository. `A0`..`A3` are the pin numbers of the
analog pins used for the decoder bus; `nums_oob num i` is the byte found by a
read `nums[num][i]` that falls outside the table `nums`. -/
structure Platform where
  A0 : Nat
  A1 : Nat
  A2 : Nat
  A3 : Nat
  nums_oob : Nat → Nat → Nat

def BIT_A (pf : Platform) : Nat := pf.A2
def BIT_B (pf : Platform) : Nat := pf.A0
def BIT_C (pf : Platform) : Nat := pf.A1
def BIT_D (pf : Platform) : Nat := pf.A3

/-- The tube-select pin of tube position `i`: `nixies[i]`. -/
def nixies (i : Nat) : Nat :=
  [NIXIE1, NIXIE2, NIXIE3, NIXIE4].getD i 0

/-- The decoder-bus pin of bit `i`: `bits[i]`. -/
def bits (pf : Platform) (i : Nat) : Nat :=
  [BIT_A pf, BIT_B pf, BIT_C pf, BIT_D pf].getD i 0

/-- The table `nums[10][4]`: the four bus levels of every digit. -/
def nums : List (List Nat) :=
  [[0, 0, 0, 0], [1, 0, 0, 0], [0, 1, 0, 0], [1, 1, 0, 0], [0, 0, 1, 0],
   [1, 0, 1, 0], [0, 1, 1, 0], [1, 1, 1, 0], [0, 0, 0, 1], [1, 0, 0, 1]]

/-- The read `nums[num][i]`. -/
def nums_at (pf : Platform) (num i : Nat) : Nat :=
  match nums.get? num with
  | some row =>
    match row.get? i with
    | some b => b
    | none => pf.nums_oob num i
  | none => pf.nums_oob num i

/-- The table `nixie_level[10 + 1]`: position of the number in the tube. -/
def nixie_level : List Nat := [10, 1, 2, 6, 7, 5, 0, 4, 9, 8, 3]

/-- The value of `sizeof(nixie_level)`. -/
def sizeof_nixie_level : Nat := 11

/-- The read `nixie_level[l]`. -/
def nixie_level_at (l : Nat) : Nat := nixie_level.getD l 0

def animation_speed : Nat := 10

/-! ## The clock device -/

/-- Modelled from the spec: `RTClib.h` is not part of the repository. A clock
reading is `{year, month, day, hour, minute, second}`, all integers. -/
structure DateTime where
  year : Nat
  month : Nat
  day : Nat
  hour : Nat
  minute : Nat
  second : Nat
deriving DecidableEq, Repr

/-! ## The globals -/

/-- The globals of the sketch, the static `count` of the interrupt handler,
the time stored in the clock device (`rtc`) and the levels of the output
pins (`pins`). -/
structure State where
  nixie_val : Nat → Nat
  nixie_set : Nat → Nat
  time_passed : Nat
  animation_step : Nat
  mode : Nat
  cur_sec : Nat
  cnt : Nat
  active_nixie : Nat
  count : Nat
  dt : DateTime
  rtc : DateTime
  pins : Nat → Nat

/-- Modelled from the spec: `digitalWrite(pin, val)` of the Arduino core
drives the binary output `pin` to `LOW` when `val` is 0 and to `HIGH`
otherwise. -/
def digitalWrite (pins : Nat → Nat) (pin val : Nat) : Nat → Nat :=
  Function.update pins pin (if val = 0 then LOW else HIGH)

/-- Modelled from the spec: `rtc.now()` returns the time stored in the clock
device. -/
def rtc_now (s : State) : DateTime := s.rtc

/-- Modelled from the spec: `rtc.adjust(datetime)` overwrites the time stored
in the clock device. -/
def rtc_adjust (s : State) (d : DateTime) : State := { s with rtc := d }

/-! ## Tube multiplexer -/

/-- The body of the loop of `setNixieNum`, for bit `i`. -/
def setNixieNum_bit (pf : Platform) (num : Nat) (pins : Nat → Nat) (i : Nat) : Nat → Nat :=
  digitalWrite pins (bits pf i) (nums_at pf num i)

/-- The function `setNixieNum(num)`: `for (i = 0; i < 4; i++)`. -/
def setNixieNum (pf : Platform) (pins : Nat → Nat) (num : Nat) : Nat → Nat :=
  (List.range 4).foldl (setNixieNum_bit pf num) pins

/-- The function `updateNixies()`. -/
def updateNixies (pf : Platform) (s : State) : State :=
  let pins1 := (List.range 4).foldl (fun p i => digitalWrite p (nixies i) HIGH) s.pins
  let pins2 := setNixieNum pf pins1 (s.nixie_val s.active_nixie)
  let pins3 := digitalWrite pins2 (nixies s.active_nixie) LOW
  let active1 := (s.active_nixie + 1) % 256
  { s with pins := pins3, active_nixie := active1 % 4 }

/-! ## Time adjustment -/

/-- Conversion of an integer to `int8_t`. -/
def toInt8 (x : Int) : Int := (x + 128) % 256 - 128

/-- Conversion of an integer to `uint8_t`. -/
def toUInt8 (x : Int) : Nat := (x % 256).toNat

/-- The function `modAdd(value, diff, v_max)`; the operator `%` of C truncates
towards zero (`Int.tmod`), and the result is returned as a `uint8_t`. -/
def modAdd (value diff v_max : Int) : Nat :=
  if diff < 0 then
    toUInt8 ((value + v_max + diff).tmod v_max)
  else if diff > 0 then
    toUInt8 ((value + diff).tmod v_max)
  else
    0

/-- The function `adjustTime(v)`. -/
def adjustTime (v : Int) (s : State) : State :=
  let s1 := { s with dt := rtc_now s }
  let hour0 : Nat := s1.dt.hour
  let minute0 : Nat := s1.dt.minute
  let hm : Nat × Nat :=
    if v > 0 then
      let hour := if s1.dt.minute = 59 then modAdd (toInt8 s1.dt.hour) 1 24 else hour0
      (hour, modAdd (toInt8 s1.dt.minute) 1 60)
    else if v < 0 then
      let hour := if s1.dt.minute = 0 then modAdd (toInt8 s1.dt.hour) (-1) 24 else hour0
      (hour, modAdd (toInt8 s1.dt.minute) (-1) 60)
    else
      (hour0, minute0)
  rtc_adjust s1 ⟨s1.dt.year, s1.dt.month, s1.dt.day, hm.1, hm.2, 0⟩

/-- The function `refreshNixieVals()`. The fields of `dt` are bytes (the year
is a 16-bit value), so every value stored here fits a `uint8_t`. -/
def refreshNixieVals (s : State) : State :=
  let set4 (a b c d : Nat) : Nat → Nat :=
    Function.update (Function.update (Function.update
      (Function.update s.nixie_set 0 a) 1 b) 2 c) 3 d
  if s.mode = SHOW_TIME then
    { s with nixie_set := set4 (s.dt.hour / 10) (s.dt.hour % 10)
                               (s.dt.minute / 10) (s.dt.minute % 10) }
  else if s.mode = SHOW_DATE then
    { s with nixie_set := set4 (s.dt.day / 10) (s.dt.day % 10)
                               (s.dt.month / 10) (s.dt.month % 10) }
  else if s.mode = SHOW_YEAR then
    { s with nixie_set := set4 2 0 (s.dt.year % 1000 / 10) (s.dt.year % 10) }
  else
    s

/-! ## Digit transition animator -/

/-- The loop `while (--l && nixie_level[l] != v)` of `get_level`; the argument
is the value of `l` right after the decrement. -/
def get_level_scan (v : Nat) : Nat → Nat
  | 0 => 0
  | l + 1 => if nixie_level_at (l + 1) ≠ v then get_level_scan v l else l + 1

/-- The function `get_level(v)`. -/
def get_level (v : Nat) : Nat := get_level_scan v (sizeof_nixie_level - 1)

/-- The body of the loop of `animate`, for tube `i`. -/
def animate_tube (s : State) (i : Nat) : State :=
  let cl := get_level (s.nixie_val i)
  let tl := get_level (s.nixie_set i)
  if cl > tl then
    { s with nixie_val := Function.update s.nixie_val i (nixie_level_at (cl - 1)) }
  else if cl < tl then
    { s with nixie_val := Function.update s.nixie_val i (nixie_level_at (cl + 1)) }
  else
    s

/-- The function `animate()`: `for (i = 0; i < N_NIXIES; i++)`. -/
def animate (s : State) : State :=
  (List.range N_NIXIES).foldl animate_tube s

/-! ## Foreground loop and interrupt handler -/

/-- The button chain of `loop()`; `rose i` is `buttons[i].rose()` after the
update of the debouncers (0 = Mode, 1 = Up, 2 = Down). -/
def loop_buttons (rose : Nat → Bool) (s : State) : State :=
  if rose 0 then
    refreshNixieVals { s with mode := ((s.mode + 1) % 256) % 3 }
  else if rose 1 then
    refreshNixieVals (adjustTime 1 s)
  else if rose 2 then
    refreshNixieVals (adjustTime (-1) s)
  else
    s

/-- The block `if (time_passed == 1)` of `loop()`. -/
def loop_poll (s : State) : State :=
  if s.time_passed = 1 then
    let s1 := { s with cnt := (s.cnt + 1) % 256 }
    let s2 := if s1.cnt = 1 then refreshNixieVals { s1 with dt := rtc_now s1 } else s1
    { s2 with cnt := s2.cnt % 100, time_passed := 0 }
  else
    s

/-- The block `if (dt.second() != cur_sec)` of `loop()`. -/
def loop_second (s : State) : State :=
  if s.dt.second ≠ s.cur_sec then
    let s1 := { s with cur_sec := s.dt.second }
    if s1.mode = SHOW_TIME then
      { s1 with pins := digitalWrite s1.pins DECIMAL (s1.cur_sec % 2) }
    else
      s1
  else
    s

/-- The block `switch (mode)` at the end of `loop()`. -/
def loop_indicator (s : State) : State :=
  if s.mode = SHOW_DATE then
    { s with pins := digitalWrite s.pins DECIMAL HIGH }
  else if s.mode = SHOW_YEAR then
    { s with pins := digitalWrite s.pins DECIMAL LOW }
  else
    s

/-- The block `if (animation_step)` of `loop()`. -/
def loop_animate (s : State) : State :=
  if s.animation_step ≠ 0 then
    { animate s with animation_step := 0 }
  else
    s

/-- The function `loop()`, one iteration of the foreground loop. The watchdog
reset has no effect on the globals. -/
def loop (rose : Nat → Bool) (s : State) : State :=
  loop_animate (loop_indicator (loop_second (loop_poll (loop_buttons rose s))))

/-- The handler `ISR(TIMER1_COMPA_vect)`. -/
def ISR (pf : Platform) (s : State) : State :=
  let s1 := updateNixies pf s
  let s2 :=
    if s1.count ≥ animation_speed then
      { s1 with count := 0, animation_step := 1 }
    else
      { s1 with count := (s1.count + 1) % 256 }
  { s2 with time_passed := 1 }

/-! ## Derived views used to state the properties -/

/-- The effect of one pass of the loop body of `animate` on a single tube,
as a function of its displayed digit `d` and target digit `t`
(see `animate_nixie_val`). -/
def animate_digit (d t : Nat) : Nat :=
  let cl := get_level d
  let tl := get_level t
  if cl > tl then nixie_level_at (cl - 1)
  else if cl < tl then nixie_level_at (cl + 1)
  else d

/-- The ring-position distance `|get_level(d) - get_level(t)|`. -/
def ring_distance (d t : Nat) : Nat :=
  Int.natAbs ((get_level d : Int) - (get_level t : Int))

/-- The nine outputs of the display bus: four tube-select outputs, four
decoder-bus outputs and the indicator output. -/
def Platform.outputs (pf : Platform) : List Nat :=
  [NIXIE1, NIXIE2, NIXIE3, NIXIE4, BIT_A pf, BIT_B pf, BIT_C pf, BIT_D pf, DECIMAL]

/-- Modelled from the spec: the pin numbers behind `A0`..`A3` are not in the
repository; the spec lists the tube-select, decoder-bus and indicator outputs
as nine separate outputs, so no two of them share a pin. -/
def Platform.wired (pf : Platform) : Prop := pf.outputs.Nodup

instance (pf : Platform) : Decidable pf.wired :=
  inferInstanceAs (Decidable pf.outputs.Nodup)

/-- A concrete platform: the analog pins of an ATmega328 board
(`A0` = 14, ..., `A3` = 17), with reads outside `nums` giving 0. -/
def uno : Platform := ⟨14, 15, 16, 17, fun _ _ => 0⟩

/-- The tube positions whose select output is active (driven `LOW`). -/
def selected_tubes (s : State) : List Nat :=
  (List.range N_NIXIES).filter (fun i => s.pins (nixies i) = LOW)

/-- The four target digits `nixie_set[0..3]`. -/
def targets (s : State) : List Nat := (List.range N_NIXIES).map s.nixie_set

/-- The derivation table of the spec (section 4.4), in the spec's words:
ShowTime: hour tens, hour units, minute tens, minute units; ShowDate: day
tens, day units, month tens, month units; ShowYear: fixed 2, 0, then
(year mod 1000) div 10 and year mod 10. -/
def target_table (mode : Nat) (r : DateTime) : List Nat :=
  if mode = SHOW_TIME then [r.hour / 10, r.hour % 10, r.minute / 10, r.minute % 10]
  else if mode = SHOW_DATE then [r.day / 10, r.day % 10, r.month / 10, r.month % 10]
  else [2, 0, r.year % 1000 / 10, r.year % 10]

/-- The button inputs of an iteration in which only Mode rose. -/
def mode_edge (i : Nat) : Bool := i == 0

/-- The button inputs of an iteration in which only Up rose. -/
def up_edge (i : Nat) : Bool := i == 1

/-- The button inputs of an iteration in which only Down rose. -/
def down_edge (i : Nat) : Bool := i == 2

/-- A concrete state: 12:34:56 on 2024-10-22 in mode ShowTime, the tubes
showing 3, 0, 9, 5 on their way to 1, 2, 3, 4, tube position 2 current. -/
def sample : State :=
  { nixie_val := fun i => [3, 0, 9, 5].getD i 0
    nixie_set := fun i => [1, 2, 3, 4].getD i 0
    time_passed := 0
    animation_step := 0
    mode := 0
    cur_sec := 56
    cnt := 1
    active_nixie := 2
    count := 3
    dt := ⟨2024, 10, 22, 12, 34, 56⟩
    rtc := ⟨2024, 10, 22, 12, 34, 56⟩
    pins := fun _ => 0 }

/-- The state `sample` with the clock device at 23:59:30. -/
def sample_late : State := { sample with rtc := ⟨2024, 10, 22, 23, 59, 30⟩ }

/-- The state `sample` with the clock device at 00:00:30. -/
def sample_early : State := { sample with rtc := ⟨2024, 10, 22, 0, 0, 30⟩ }

/-- The state `sample` in mode ShowDate. -/
def sample_date : State := { sample with mode := SHOW_DATE }

/-- The button inputs of an iteration in which no button rose. -/
def no_edge (_ : Nat) : Bool := false

/-- The decoder-bus lines read as a binary number, `BIT_A` least significant:
A + 2B + 4C + 8D. -/
def bus_value (pf : Platform) (s : State) : Nat :=
  s.pins (BIT_A pf) + 2 * s.pins (BIT_B pf) + 4 * s.pins (BIT_C pf) + 8 * s.pins (BIT_D pf)

/-- The level that `digitalWrite(DECIMAL, sec % 2)` gives the indicator:
`HIGH` in an odd second, `LOW` in an even one. -/
def second_level (sec : Nat) : Nat := if sec % 2 = 0 then LOW else HIGH

/-- The other output level. -/
def opposite (level : Nat) : Nat := if level = LOW then HIGH else LOW

/-- The state `sample` in mode ShowYear. -/
def sample_year : State := { sample with mode := SHOW_YEAR }

/-- The state `sample` in mode ShowYear with a last-known reading in the
year 2100. -/
def sample_2100 : State :=
  { sample with mode := SHOW_YEAR, dt := ⟨2100, 10, 22, 12, 34, 56⟩ }

/-- The state `sample` with a last-known reading in the year 2100; the mode
is ShowTime. -/
def sample_time_2100 : State := { sample with dt := ⟨2100, 10, 22, 12, 34, 56⟩ }

/-- The state `sample` with a clock poll due (`time_passed` set, `cnt` at 0)
and the clock device one second ahead of the last-known reading: the last-seen
second is 56, the indicator is `LOW`, the device is at second 57. -/
def sample_poll : State :=
  { sample with time_passed := 1, cnt := 0, rtc := ⟨2024, 10, 22, 12, 34, 57⟩ }

/-- The state `sample` at 12:34:55, last-seen second 55, with the indicator
`LOW` and no clock poll due. -/
def sample_odd : State :=
  { sample with cur_sec := 55, dt := ⟨2024, 10, 22, 12, 34, 55⟩,
                rtc := ⟨2024, 10, 22, 12, 34, 55⟩ }

/-- The globals as the sketch initialises them, with the clock device at
`now`. Modelled from the spec: the value of the default-constructed `dt` and
the levels of the outputs after `setup()` are not in the repository; `dt` is
overwritten by the clock poll of the first iteration of `loop()`. -/
def power_on (now : DateTime) : State :=
  { nixie_val := fun _ => 0
    nixie_set := fun _ => 0
    time_passed := 1
    animation_step := 0
    mode := 0
    cur_sec := 0
    cnt := 0
    active_nixie := 0
    count := 0
    dt := ⟨2000, 1, 1, 0, 0, 0⟩
    rtc := now
    pins := fun _ => LOW }

/-- One timer interrupt followed by one iteration of `loop()`. -/
def tick_then_loop (rose : Nat → Bool) (s : State) : State := loop rose (ISR uno s)

/-- A run of the sketch: power-on with the clock device at 12:34:55, the first
iteration of `loop()` (which polls the clock), then three iterations in each of
which the mode button rose: ShowTime, ShowDate, ShowYear and ShowTime again. -/
def trace_time : State :=
  tick_then_loop mode_edge (tick_then_loop mode_edge (tick_then_loop mode_edge
    (loop no_edge (power_on ⟨2024, 10, 22, 12, 34, 55⟩))))

/-- The run `trace_time` continued by 96 ticks and iterations without a button,
after which the next clock poll is due; then the clock device reaches 12:34:56
and the timer interrupt fires. This is the state in which the next iteration of
`loop()` starts. -/
def trace_entry : State :=
  ISR uno
    { (tick_then_loop no_edge)^[96] trace_time with rtc := ⟨2024, 10, 22, 12, 34, 56⟩ }

/-- The state `sample` with the "animate now" flag set. -/
def sample_step : State := { sample with animation_step := 1 }

/-- The state `sample` with the tick sub-counter of the interrupt handler
at 0. -/
def sample_reset : State := { sample with count := 0 }

/-! ## The animator: lemmas -/

theorem animate_tube_nixie_set (s : State) (i : Nat) :
    (animate_tube s i).nixie_set = s.nixie_set := by
  unfold animate_tube
  dsimp only
  split_ifs <;> rfl

theorem animate_tube_nixie_val (s : State) (i j : Nat) :
    (animate_tube s i).nixie_val j =
      if j = i then animate_digit (s.nixie_val i) (s.nixie_set i) else s.nixie_val j := by
  unfold animate_tube animate_digit
  dsimp only
  by_cases hj : j = i
  · subst hj
    rw [if_pos rfl]
    split_ifs <;> simp
  · rw [if_neg hj]
    split_ifs <;> simp [Function.update, hj]

theorem animate_nixie_set (s : State) : (animate s).nixie_set = s.nixie_set := by
  simp [animate, N_NIXIES, List.range_succ, animate_tube_nixie_set]

/-- One call of `animate` applies `animate_digit` to every tube. -/
theorem animate_nixie_val (s : State) (i : Nat) (hi : i < N_NIXIES) :
    (animate s).nixie_val i = animate_digit (s.nixie_val i) (s.nixie_set i) := by
  have h4 : List.range N_NIXIES = [0, 1, 2, 3] := by decide
  unfold animate
  rw [h4]
  simp only [List.foldl_cons, List.foldl_nil, animate_tube_nixie_val, animate_tube_nixie_set]
  unfold N_NIXIES at hi
  interval_cases i <;> simp

theorem animate_iterate_nixie_set (n : Nat) (s : State) :
    (animate^[n] s).nixie_set = s.nixie_set := by
  induction n generalizing s with
  | zero => rfl
  | succ n ih => rw [Function.iterate_succ_apply, ih, animate_nixie_set]

theorem animate_iterate_nixie_val (n : Nat) (s : State) (i : Nat) (hi : i < N_NIXIES) :
    (animate^[n] s).nixie_val i =
      (fun d => animate_digit d (s.nixie_set i))^[n] (s.nixie_val i) := by
  induction n generalizing s with
  | zero => rfl
  | succ n ih =>
    rw [Function.iterate_succ_apply, ih, animate_nixie_set, animate_nixie_val s i hi,
      Function.iterate_succ_apply]

/-- On digits, a step stays on a digit and does not increase the distance. -/
theorem animate_digit_facts : ∀ d, d < 10 → ∀ t, t < 10 →
    animate_digit d t < 10 ∧ ring_distance (animate_digit d t) t ≤ ring_distance d t := by
  decide

/-- On digits, nine steps always arrive (the longest walk is 3 to 1). -/
theorem animate_digit_nine : ∀ d, d < 10 → ∀ t, t < 10 →
    (fun x => animate_digit x t)^[9] d = t := by
  decide

theorem animate_digit_self (t : Nat) : animate_digit t t = t := by
  simp [animate_digit]

theorem animate_digit_iterate_lt (t : Nat) (ht : t < 10) (k : Nat) (d : Nat) (hd : d < 10) :
    (fun x => animate_digit x t)^[k] d < 10 := by
  induction k with
  | zero => exact hd
  | succ k ih =>
    rw [Function.iterate_succ_apply']
    exact (animate_digit_facts _ ih t ht).1

theorem get_level_scan_le (v l : Nat) : get_level_scan v l ≤ l := by
  induction l with
  | zero => simp [get_level_scan]
  | succ l ih =>
    unfold get_level_scan
    split_ifs
    · omega
    · exact le_refl _

theorem get_level_le (v : Nat) : get_level v ≤ 10 :=
  get_level_scan_le v 10

theorem get_level_nixie_level_at : ∀ k, k < 11 → get_level (nixie_level_at k) = k := by
  decide

theorem get_level_digit_ne_zero : ∀ d, d < 10 → get_level d ≠ 0 := by
  decide

/-! ## The animator: properties -/

/-- C1: for a tube whose displayed and target digits are both in 0..9, repeated
calls of `animate` (the target staying as it is) make the displayed digit equal
to the target after at most 11 calls, the size of the ring, and keep it there;
and after every call the ring-position distance to the target is at most what
it was before the call. -/
theorem animate_monotonic_convergence (s : State) (i : Nat) (hi : i < N_NIXIES)
    (hd : s.nixie_val i < 10) (ht : s.nixie_set i < 10) :
    (∃ n, n ≤ sizeof_nixie_level ∧
      ∀ m, n ≤ m → (animate^[m] s).nixie_val i = s.nixie_set i) ∧
    (∀ k, (animate^[k] s).nixie_set i = s.nixie_set i ∧
      ring_distance ((animate^[k + 1] s).nixie_val i) (s.nixie_set i) ≤
        ring_distance ((animate^[k] s).nixie_val i) (s.nixie_set i)) := by
  constructor
  · refine ⟨9, by decide, ?_⟩
    intro m hm
    obtain ⟨j, rfl⟩ : ∃ j, m = j + 9 := ⟨m - 9, by omega⟩
    rw [animate_iterate_nixie_val _ _ _ hi, Function.iterate_add_apply,
      animate_digit_nine _ hd _ ht]
    exact @Function.iterate_fixed _ (fun d => animate_digit d (s.nixie_set i)) _
      (animate_digit_self _) j
  · intro k
    refine ⟨by rw [animate_iterate_nixie_set], ?_⟩
    rw [animate_iterate_nixie_val _ _ _ hi, animate_iterate_nixie_val _ _ _ hi,
      Function.iterate_succ_apply']
    exact (animate_digit_facts _ (animate_digit_iterate_lt _ ht k _ hd) _ ht).2

theorem animate_monotonic_convergence_witness :
    (0 < N_NIXIES ∧ sample.nixie_val 0 < 10 ∧ sample.nixie_set 0 < 10) ∧
    ((∃ n, n ≤ sizeof_nixie_level ∧
      ∀ m, n ≤ m → (animate^[m] sample).nixie_val 0 = sample.nixie_set 0) ∧
    (∀ k, (animate^[k] sample).nixie_set 0 = sample.nixie_set 0 ∧
      ring_distance ((animate^[k + 1] sample).nixie_val 0) (sample.nixie_set 0) ≤
        ring_distance ((animate^[k] sample).nixie_val 0) (sample.nixie_set 0))) :=
  ⟨by decide, animate_monotonic_convergence sample 0 (by decide) (by decide) (by decide)⟩

/-- C2: if every displayed digit and every target digit is in 0..9 before a
call of `animate`, every displayed digit is in 0..9 after it, and so after any
number of calls; the blank marker 10, which sits at ring position 0, is never
put into `nixie_val`. -/
theorem animate_keeps_renderable (s : State)
    (h : ∀ i, i < N_NIXIES → s.nixie_val i < 10 ∧ s.nixie_set i < 10) :
    (∀ i, i < N_NIXIES → (animate s).nixie_val i < 10 ∧ (animate s).nixie_val i ≠ 10 ∧
      get_level ((animate s).nixie_val i) ≠ 0) ∧
    (∀ n i, i < N_NIXIES → (animate^[n] s).nixie_val i < 10) := by
  constructor
  · intro i hi
    rw [animate_nixie_val s i hi]
    have h1 := (animate_digit_facts _ (h i hi).1 _ (h i hi).2).1
    exact ⟨h1, by omega, get_level_digit_ne_zero _ h1⟩
  · intro n i hi
    rw [animate_iterate_nixie_val n s i hi]
    exact animate_digit_iterate_lt _ (h i hi).2 n _ (h i hi).1

theorem animate_keeps_renderable_witness :
    (∀ i, i < N_NIXIES → sample.nixie_val i < 10 ∧ sample.nixie_set i < 10) ∧
    ((∀ i, i < N_NIXIES → (animate sample).nixie_val i < 10 ∧
      (animate sample).nixie_val i ≠ 10 ∧ get_level ((animate sample).nixie_val i) ≠ 0) ∧
    (∀ n i, i < N_NIXIES → (animate^[n] sample).nixie_val i < 10)) :=
  ⟨by decide, animate_keeps_renderable sample (by decide)⟩

/-- C3: for every tube, whatever the two bytes are: if the displayed digit
equals the target digit before `animate` is called, the call leaves it as it
is; and one call never moves the displayed ring position past the ring position
of the target: a position at or below the target stays at or below it, a
position at or above the target stays at or above it. -/
theorem animate_no_overshoot (s : State) (i : Nat) (hi : i < N_NIXIES) :
    (s.nixie_val i = s.nixie_set i → (animate s).nixie_val i = s.nixie_val i) ∧
    (get_level (s.nixie_val i) ≤ get_level (s.nixie_set i) →
      get_level ((animate s).nixie_val i) ≤ get_level (s.nixie_set i)) ∧
    (get_level (s.nixie_set i) ≤ get_level (s.nixie_val i) →
      get_level (s.nixie_set i) ≤ get_level ((animate s).nixie_val i)) := by
  rw [animate_nixie_val s i hi]
  have hc := get_level_le (s.nixie_val i)
  have ht := get_level_le (s.nixie_set i)
  refine ⟨fun h => by rw [h, animate_digit_self], ?_, ?_⟩
  · intro hle
    unfold animate_digit
    dsimp only
    split_ifs with h1 h2
    · omega
    · rw [get_level_nixie_level_at _ (by omega)]; omega
    · exact hle
  · intro hle
    unfold animate_digit
    dsimp only
    split_ifs with h1 h2
    · rw [get_level_nixie_level_at _ (by omega)]; omega
    · omega
    · exact hle

theorem animate_no_overshoot_witness :
    (2 < N_NIXIES ∧ get_level (sample.nixie_val 2) ≤ get_level (sample.nixie_set 2) ∧
      1 < N_NIXIES ∧ get_level (sample.nixie_set 1) ≤ get_level (sample.nixie_val 1) ∧
      3 < N_NIXIES ∧
      (animate (animate sample)).nixie_val 3 = (animate (animate sample)).nixie_set 3) ∧
    get_level ((animate sample).nixie_val 2) ≤ get_level (sample.nixie_set 2) ∧
    get_level (sample.nixie_set 1) ≤ get_level ((animate sample).nixie_val 1) ∧
    (animate (animate (animate sample))).nixie_val 3 = (animate (animate sample)).nixie_val 3 :=
  ⟨by decide, (animate_no_overshoot sample 2 (by decide)).2.1 (by decide),
    (animate_no_overshoot sample 1 (by decide)).2.2 (by decide),
    (animate_no_overshoot (animate (animate sample)) 3 (by decide)).1 (by decide)⟩

/-! ## The multiplexer: lemmas -/

theorem wired_bits_ne_nixies (pf : Platform) (hw : pf.wired) :
    ∀ k, k < 4 → ∀ j, j < 4 → bits pf k ≠ nixies j := by
  unfold Platform.wired Platform.outputs at hw
  simp only [List.nodup_cons, List.mem_cons, List.mem_singleton, not_or] at hw
  obtain ⟨⟨-, -, -, ha1, hb1, hc1, hd1, -⟩, ⟨-, -, ha2, hb2, hc2, hd2, -⟩,
    ⟨-, ha3, hb3, hc3, hd3, -⟩, ⟨ha4, hb4, hc4, hd4, -⟩, -⟩ := hw
  intro k hk j hj
  interval_cases k <;> interval_cases j <;>
    simp only [bits, nixies, List.getD_cons_zero, List.getD_cons_succ] <;>
    first
      | exact Ne.symm ha1 | exact Ne.symm hb1 | exact Ne.symm hc1 | exact Ne.symm hd1
      | exact Ne.symm ha2 | exact Ne.symm hb2 | exact Ne.symm hc2 | exact Ne.symm hd2
      | exact Ne.symm ha3 | exact Ne.symm hb3 | exact Ne.symm hc3 | exact Ne.symm hd3
      | exact Ne.symm ha4 | exact Ne.symm hb4 | exact Ne.symm hc4 | exact Ne.symm hd4

/-- The function `setNixieNum` writes the decoder-bus pins only. -/
theorem setNixieNum_other (pf : Platform) (pins : Nat → Nat) (num q : Nat)
    (hq : ∀ k, k < 4 → bits pf k ≠ q) : setNixieNum pf pins num q = pins q := by
  have h4 : List.range 4 = [0, 1, 2, 3] := by decide
  unfold setNixieNum
  rw [h4]
  simp only [List.foldl_cons, List.foldl_nil, setNixieNum_bit, digitalWrite]
  rw [Function.update_noteq (hq 3 (by omega)).symm, Function.update_noteq (hq 2 (by omega)).symm,
    Function.update_noteq (hq 1 (by omega)).symm, Function.update_noteq (hq 0 (by omega)).symm]

/-- The levels of the four tube-select outputs after `updateNixies`. -/
theorem updateNixies_pins (pf : Platform) (hw : pf.wired) (s : State) (j : Nat) (hj : j < 4)
    (hp : s.active_nixie < 4) :
    (updateNixies pf s).pins (nixies j) = if j = s.active_nixie then LOW else HIGH := by
  have h4 : List.range 4 = [0, 1, 2, 3] := by decide
  unfold updateNixies
  dsimp only
  unfold digitalWrite
  by_cases hjp : j = s.active_nixie
  · subst hjp
    simp [LOW]
  · have hne : nixies j ≠ nixies s.active_nixie := by
      generalize s.active_nixie = p at hp hjp
      interval_cases j <;> interval_cases p <;> simp_all [nixies, NIXIE1, NIXIE2, NIXIE3, NIXIE4]
    rw [Function.update_noteq hne, if_neg hjp,
      setNixieNum_other pf _ _ _ (fun k hk => wired_bits_ne_nixies pf hw k hk j hj), h4]
    simp only [List.foldl_cons, List.foldl_nil]
    interval_cases j <;> simp [nixies, NIXIE1, NIXIE2, NIXIE3, NIXIE4, HIGH, Function.update]

theorem updateNixies_active (pf : Platform) (s : State) :
    (updateNixies pf s).active_nixie = (s.active_nixie + 1) % 4 := by
  unfold updateNixies
  dsimp only
  omega

theorem selected_tubes_eq (s : State) (p : Nat) (hp : p < 4)
    (h : ∀ j, j < 4 → s.pins (nixies j) = if j = p then LOW else HIGH) :
    selected_tubes s = [p] := by
  have h4 : List.range N_NIXIES = [0, 1, 2, 3] := by decide
  unfold selected_tubes
  rw [h4]
  have h0 := h 0 (by omega)
  have h1 := h 1 (by omega)
  have h2 := h 2 (by omega)
  have h3 := h 3 (by omega)
  interval_cases p <;> simp_all [List.filter, LOW, HIGH]

theorem updateNixies_selected (pf : Platform) (hw : pf.wired) (s : State)
    (hp : s.active_nixie < 4) :
    selected_tubes (updateNixies pf s) = [s.active_nixie] :=
  selected_tubes_eq (updateNixies pf s) s.active_nixie hp
    (fun j hj => updateNixies_pins pf hw s j hj hp)

theorem updateNixies_iterate_active (pf : Platform) (k : Nat) (s : State)
    (hp : s.active_nixie < 4) :
    ((updateNixies pf)^[k] s).active_nixie = (s.active_nixie + k) % 4 := by
  induction k with
  | zero => simp; omega
  | succ k ih =>
    rw [Function.iterate_succ_apply', updateNixies_active, ih]
    omega

/-! ## The multiplexer: properties -/

/-- C4: on a platform whose nine outputs are separate pins, for every state
with `active_nixie` in 0..3, after `updateNixies` at most one tube-select
output is driven LOW: exactly the output of the tube position that was current
at the start of the tick is LOW, and the other three are HIGH. -/
theorem updateNixies_exclusive (pf : Platform) (hw : pf.wired) (s : State)
    (hp : s.active_nixie < 4) :
    (selected_tubes (updateNixies pf s)).length ≤ 1 ∧
    selected_tubes (updateNixies pf s) = [s.active_nixie] ∧
    (updateNixies pf s).pins (nixies s.active_nixie) = LOW ∧
    (∀ j, j < 4 → j ≠ s.active_nixie → (updateNixies pf s).pins (nixies j) = HIGH) := by
  have hsel := updateNixies_selected pf hw s hp
  refine ⟨by rw [hsel]; simp, hsel, ?_, ?_⟩
  · rw [updateNixies_pins pf hw s _ hp hp, if_pos rfl]
  · intro j hj hne
    rw [updateNixies_pins pf hw s _ hj hp, if_neg hne]

theorem updateNixies_exclusive_witness :
    (uno.wired ∧ sample.active_nixie < 4) ∧
    ((selected_tubes (updateNixies uno sample)).length ≤ 1 ∧
    selected_tubes (updateNixies uno sample) = [sample.active_nixie] ∧
    (updateNixies uno sample).pins (nixies sample.active_nixie) = LOW ∧
    (∀ j, j < 4 → j ≠ sample.active_nixie →
      (updateNixies uno sample).pins (nixies j) = HIGH)) :=
  ⟨by decide, updateNixies_exclusive uno (by decide) sample (by decide)⟩

/-- C5: on a platform whose nine outputs are separate pins, starting from any
state with `active_nixie` = p in 0..3, the first, second, third and fourth of
four consecutive calls of `updateNixies` select the tube positions p,
(p+1) mod 4, (p+2) mod 4 and (p+3) mod 4; these are the four tube positions,
each once; and after the four calls `active_nixie` is p again. -/
theorem updateNixies_round_robin (pf : Platform) (hw : pf.wired) (s : State)
    (hp : s.active_nixie < 4) :
    (∀ k, k < 4 →
      selected_tubes ((updateNixies pf)^[k + 1] s) = [(s.active_nixie + k) % 4]) ∧
    List.Perm ((List.range 4).map (fun k => (s.active_nixie + k) % 4)) (List.range 4) ∧
    ((updateNixies pf)^[4] s).active_nixie = s.active_nixie := by
  refine ⟨?_, ?_, ?_⟩
  · intro k _
    have ha := updateNixies_iterate_active pf k s hp
    have hlt : ((updateNixies pf)^[k] s).active_nixie < 4 := by rw [ha]; omega
    rw [Function.iterate_succ_apply', ← ha]
    exact updateNixies_selected pf hw _ hlt
  · generalize s.active_nixie = p at hp
    interval_cases p <;> decide
  · rw [updateNixies_iterate_active pf 4 s hp]
    omega

theorem updateNixies_round_robin_witness :
    (uno.wired ∧ sample.active_nixie < 4) ∧
    ((∀ k, k < 4 →
      selected_tubes ((updateNixies uno)^[k + 1] sample) = [(sample.active_nixie + k) % 4]) ∧
    List.Perm ((List.range 4).map (fun k => (sample.active_nixie + k) % 4)) (List.range 4) ∧
    ((updateNixies uno)^[4] sample).active_nixie = sample.active_nixie) :=
  ⟨by decide, updateNixies_round_robin uno (by decide) sample (by decide)⟩

/-! ## Time adjustment: lemmas -/

theorem modAdd_hour_up : ∀ h : Nat, h < 24 → modAdd (toInt8 h) 1 24 = (h + 1) % 24 := by
  decide

theorem modAdd_minute_up : ∀ m : Nat, m < 60 → modAdd (toInt8 m) 1 60 = (m + 1) % 60 := by
  decide

theorem modAdd_hour_down : ∀ h : Nat, h < 24 → modAdd (toInt8 h) (-1) 24 = (h + 23) % 24 := by
  decide

theorem modAdd_minute_down : ∀ m : Nat, m < 60 → modAdd (toInt8 m) (-1) 60 = (m + 59) % 60 := by
  decide

/-! ## Time adjustment: properties -/

/-- C6: for every clock reading with hour in 0..23 and minute in 0..59,
`adjustTime(1)` writes to the clock device minute = (minute + 1) mod 60,
hour = (hour + 1) mod 24 if the old minute was 59 and the old hour otherwise,
and second = 0; the reading 23:59 yields 00:00. -/
theorem adjustTime_up (s : State) (hh : s.rtc.hour < 24) (hm : s.rtc.minute < 60) :
    (adjustTime 1 s).rtc.minute = (s.rtc.minute + 1) % 60 ∧
    (adjustTime 1 s).rtc.hour =
      (if s.rtc.minute = 59 then (s.rtc.hour + 1) % 24 else s.rtc.hour) ∧
    (adjustTime 1 s).rtc.second = 0 ∧
    (s.rtc.hour = 23 → s.rtc.minute = 59 →
      (adjustTime 1 s).rtc.hour = 0 ∧ (adjustTime 1 s).rtc.minute = 0) := by
  have e1 : (adjustTime 1 s).rtc.minute = (s.rtc.minute + 1) % 60 := by
    simp [adjustTime, rtc_adjust, rtc_now, modAdd_minute_up _ hm]
  have e2 : (adjustTime 1 s).rtc.hour =
      (if s.rtc.minute = 59 then (s.rtc.hour + 1) % 24 else s.rtc.hour) := by
    simp only [adjustTime, rtc_adjust, rtc_now]
    split_ifs <;> simp_all [modAdd_hour_up _ hh]
  refine ⟨e1, e2, rfl, ?_⟩
  intro h23 h59
  rw [e1, e2, if_pos h59, h23, h59]
  decide

theorem adjustTime_up_witness :
    (sample_late.rtc.hour < 24 ∧ sample_late.rtc.minute < 60 ∧
      sample_late.rtc.hour = 23 ∧ sample_late.rtc.minute = 59) ∧
    (adjustTime 1 sample_late).rtc.hour = 0 ∧ (adjustTime 1 sample_late).rtc.minute = 0 :=
  ⟨by decide,
    (adjustTime_up sample_late (by decide) (by decide)).2.2.2 (by decide) (by decide)⟩

/-- C7: for every clock reading with hour in 0..23 and minute in 0..59,
`adjustTime(-1)` writes to the clock device minute = (minute - 1) mod 60, which
is 59 if the minute was 0; hour = (hour - 1) mod 24, which is 23 if the hour
was 0, if the old minute was 0, and the old hour otherwise; and second = 0;
the reading 00:00 yields 23:59. -/
theorem adjustTime_down (s : State) (hh : s.rtc.hour < 24) (hm : s.rtc.minute < 60) :
    (adjustTime (-1) s).rtc.minute = (if s.rtc.minute = 0 then 59 else s.rtc.minute - 1) ∧
    ((adjustTime (-1) s).rtc.minute : Int) = ((s.rtc.minute : Int) - 1) % 60 ∧
    (adjustTime (-1) s).rtc.hour =
      (if s.rtc.minute = 0 then (if s.rtc.hour = 0 then 23 else s.rtc.hour - 1)
       else s.rtc.hour) ∧
    (s.rtc.minute = 0 →
      ((adjustTime (-1) s).rtc.hour : Int) = ((s.rtc.hour : Int) - 1) % 24) ∧
    (adjustTime (-1) s).rtc.second = 0 ∧
    (s.rtc.hour = 0 → s.rtc.minute = 0 →
      (adjustTime (-1) s).rtc.hour = 23 ∧ (adjustTime (-1) s).rtc.minute = 59) := by
  have e1 : (adjustTime (-1) s).rtc.minute = (s.rtc.minute + 59) % 60 := by
    simp [adjustTime, rtc_adjust, rtc_now, modAdd_minute_down _ hm]
  have e2 : (adjustTime (-1) s).rtc.hour =
      (if s.rtc.minute = 0 then (s.rtc.hour + 23) % 24 else s.rtc.hour) := by
    simp only [adjustTime, rtc_adjust, rtc_now]
    split_ifs <;> simp_all [modAdd_hour_down _ hh]
  refine ⟨?_, ?_, ?_, ?_, rfl, ?_⟩
  · rw [e1]; split_ifs <;> omega
  · rw [e1]; omega
  · rw [e2]; split_ifs <;> omega
  · intro h0; rw [e2, if_pos h0]; omega
  · intro h0 m0
    rw [e1, e2, if_pos m0, h0, m0]
    decide

theorem adjustTime_down_witness :
    (sample_early.rtc.hour < 24 ∧ sample_early.rtc.minute < 60 ∧
      sample_early.rtc.hour = 0 ∧ sample_early.rtc.minute = 0) ∧
    ((adjustTime (-1) sample_early).rtc.hour : Int) = ((sample_early.rtc.hour : Int) - 1) % 24 ∧
    (adjustTime (-1) sample_early).rtc.hour = 23 ∧
    (adjustTime (-1) sample_early).rtc.minute = 59 :=
  ⟨by decide,
    (adjustTime_down sample_early (by decide) (by decide)).2.2.2.1 (by decide),
    (adjustTime_down sample_early (by decide) (by decide)).2.2.2.2.2 (by decide) (by decide)⟩

/-! ## The foreground loop: lemmas -/

theorem animate_tube_frame (s : State) (i : Nat) :
    animate_tube s i = { s with nixie_val := (animate_tube s i).nixie_val } := by
  unfold animate_tube
  dsimp only
  split_ifs <;> rfl

theorem animate_fold_frame (l : List Nat) (s : State) :
    l.foldl animate_tube s = { s with nixie_val := (l.foldl animate_tube s).nixie_val } := by
  induction l generalizing s with
  | nil => rfl
  | cons i l ih =>
    rw [List.foldl_cons, ih (animate_tube s i), animate_tube_frame s i]

/-- The function `animate` writes `nixie_val` only. -/
theorem animate_frame (s : State) :
    animate s = { s with nixie_val := (animate s).nixie_val } :=
  animate_fold_frame _ s

/-- The function `refreshNixieVals` writes `nixie_set` only. -/
theorem refreshNixieVals_frame (s : State) :
    refreshNixieVals s = { s with nixie_set := (refreshNixieVals s).nixie_set } := by
  unfold refreshNixieVals
  dsimp only
  split_ifs <;> rfl

/-- The function `refreshNixieVals` follows the derivation table. -/
theorem refreshNixieVals_targets (s : State) (hm : s.mode < 3) :
    targets (refreshNixieVals s) = target_table s.mode s.dt := by
  have h4 : List.range N_NIXIES = [0, 1, 2, 3] := by decide
  unfold targets refreshNixieVals target_table
  rw [h4]
  generalize s.mode = m at hm
  interval_cases m <;> simp [SHOW_TIME, SHOW_DATE, SHOW_YEAR, Function.update]

/-- What the last three blocks of `loop()` leave as it is. -/
theorem loop_tail_frame (s : State) :
    (loop_animate (loop_indicator (loop_second s))).mode = s.mode ∧
    (loop_animate (loop_indicator (loop_second s))).dt = s.dt ∧
    (loop_animate (loop_indicator (loop_second s))).rtc = s.rtc ∧
    (loop_animate (loop_indicator (loop_second s))).nixie_set = s.nixie_set := by
  unfold loop_animate
  split_ifs
  · rw [animate_frame]
    unfold loop_indicator loop_second
    dsimp only
    split_ifs <;> exact ⟨rfl, rfl, rfl, rfl⟩
  · unfold loop_indicator loop_second
    dsimp only
    split_ifs <;> exact ⟨rfl, rfl, rfl, rfl⟩

theorem loop_poll_frame (s : State) :
    (loop_poll s).mode = s.mode ∧ (loop_poll s).rtc = s.rtc := by
  unfold loop_poll
  dsimp only
  split_ifs
  · rw [refreshNixieVals_frame]; exact ⟨rfl, rfl⟩
  · exact ⟨rfl, rfl⟩
  · exact ⟨rfl, rfl⟩

theorem loop_poll_idle (s : State) (h : s.time_passed ≠ 1) : loop_poll s = s := by
  unfold loop_poll
  rw [if_neg h]

theorem loop_poll_targets (s : State) (hm : s.mode < 3)
    (h : targets s = target_table s.mode s.dt) :
    targets (loop_poll s) = target_table s.mode (loop_poll s).dt ∧
    ((loop_poll s).dt = s.dt ∨ (loop_poll s).dt = s.rtc) := by
  unfold loop_poll
  dsimp only
  split_ifs
  · constructor
    · have := refreshNixieVals_targets
        { s with cnt := (s.cnt + 1) % 256, dt := rtc_now { s with cnt := (s.cnt + 1) % 256 } } hm
      rw [refreshNixieVals_frame] at this ⊢
      exact this
    · right
      rw [refreshNixieVals_frame]
      rfl
  · exact ⟨h, Or.inl rfl⟩
  · exact ⟨h, Or.inl rfl⟩

theorem loop_mode_edge (rose : Nat → Bool) (h0 : rose 0 = true) (s : State) :
    (loop rose s).mode = ((s.mode + 1) % 256) % 3 := by
  unfold loop
  rw [(loop_tail_frame _).1, (loop_poll_frame _).1]
  unfold loop_buttons
  rw [if_pos h0, refreshNixieVals_frame]

/-- After an Up edge in mode ShowTime with no clock poll in the same iteration,
the target digits are those of the reading taken before the adjustment. -/
theorem up_edge_targets_old_reading (s : State) (hmode : s.mode = SHOW_TIME)
    (hidle : s.time_passed ≠ 1) :
    targets (loop up_edge s) = target_table SHOW_TIME s.rtc := by
  have hb : loop_buttons up_edge s = refreshNixieVals (adjustTime 1 s) := by
    unfold loop_buttons
    rw [if_neg (by decide), if_pos (by decide)]
  have hm : (adjustTime 1 s).mode = SHOW_TIME := hmode
  have ht := refreshNixieVals_targets (adjustTime 1 s) (by rw [hm]; decide)
  have hidle2 : (loop_buttons up_edge s).time_passed ≠ 1 := by
    rw [hb, refreshNixieVals_frame]
    exact hidle
  have e1 : targets (loop up_edge s) = targets (loop_buttons up_edge s) := by
    unfold targets loop
    rw [(loop_tail_frame _).2.2.2, loop_poll_idle _ hidle2]
  rw [e1, hb, ht, hm]
  rfl

/-! ## The foreground loop: properties -/

/-- C8: evaluation of the Up edge at 12:34:56 in mode ShowTime, no clock poll
being due in the iteration. The clock device receives 12:35:00, but the target
digits are 1, 2, 3, 4: `refreshNixieVals` reads `dt`, which `adjustTime` set to
the reading taken before the adjustment and did not bring up to the timestamp
it wrote. -/
theorem up_edge_targets_stale :
    (loop up_edge sample).rtc = ⟨2024, 10, 22, 12, 35, 0⟩ ∧
    targets (loop up_edge sample) = [1, 2, 3, 4] ∧
    targets (loop up_edge sample) ≠ target_table SHOW_TIME (loop up_edge sample).rtc := by
  decide

/-- C9: for every mode in 0..2, an iteration of `loop()` in which the mode
button rose sets the mode to (mode + 1) mod 3, which is again in 0..2, and
three such iterations return the mode to its starting value. -/
theorem mode_cycling (s : State) (hm : s.mode < 3) (r1 r2 r3 : Nat → Bool)
    (h1 : r1 0 = true) (h2 : r2 0 = true) (h3 : r3 0 = true) :
    (loop r1 s).mode = (s.mode + 1) % 3 ∧ (loop r1 s).mode < 3 ∧
    (loop r3 (loop r2 (loop r1 s))).mode = s.mode := by
  rw [loop_mode_edge r3 h3, loop_mode_edge r2 h2, loop_mode_edge r1 h1]
  omega

theorem mode_cycling_witness :
    (sample.mode < 3 ∧ mode_edge 0 = true) ∧
    ((loop mode_edge sample).mode = (sample.mode + 1) % 3 ∧ (loop mode_edge sample).mode < 3 ∧
    (loop mode_edge (loop mode_edge (loop mode_edge sample))).mode = sample.mode) :=
  ⟨by decide, mode_cycling sample (by decide) mode_edge mode_edge mode_edge rfl rfl rfl⟩

/-- C10: for every last-known clock reading `dt`, `refreshNixieVals` sets the
target digits to hour tens, hour units, minute tens, minute units in mode
ShowTime and to day tens, day units, month tens, month units in mode ShowDate;
and after an iteration of `loop()` in which the mode button rose the target
digits are the entry of the derivation table for the new mode, applied to the
last-known reading, which is the same reading as before when the clock reading
is fixed. -/
theorem target_derivation_table (s : State) :
    (s.mode = SHOW_TIME → targets (refreshNixieVals s) =
      [s.dt.hour / 10, s.dt.hour % 10, s.dt.minute / 10, s.dt.minute % 10]) ∧
    (s.mode = SHOW_DATE → targets (refreshNixieVals s) =
      [s.dt.day / 10, s.dt.day % 10, s.dt.month / 10, s.dt.month % 10]) ∧
    (∀ rose : Nat → Bool, rose 0 = true → s.mode < 3 →
      targets (loop rose s) = target_table ((s.mode + 1) % 3) (loop rose s).dt ∧
      ((loop rose s).dt = s.dt ∨ (loop rose s).dt = s.rtc) ∧
      (s.rtc = s.dt → targets (loop rose s) = target_table ((s.mode + 1) % 3) s.dt)) := by
  refine ⟨?_, ?_, ?_⟩
  · intro h
    rw [refreshNixieVals_targets s (by rw [h]; decide), h]
    rfl
  · intro h
    rw [refreshNixieVals_targets s (by rw [h]; decide), h]
    rfl
  · intro rose h0 hm
    have hb : loop_buttons rose s =
        refreshNixieVals { s with mode := ((s.mode + 1) % 256) % 3 } := by
      unfold loop_buttons
      rw [if_pos h0]
    have hmode : (loop_buttons rose s).mode = (s.mode + 1) % 3 := by
      rw [hb, refreshNixieVals_frame]
      show ((s.mode + 1) % 256) % 3 = (s.mode + 1) % 3
      omega
    have hdt : (loop_buttons rose s).dt = s.dt := by
      rw [hb, refreshNixieVals_frame]
    have hrtc : (loop_buttons rose s).rtc = s.rtc := by
      rw [hb, refreshNixieVals_frame]
    have ht : targets (loop_buttons rose s) =
        target_table (loop_buttons rose s).mode (loop_buttons rose s).dt := by
      rw [hb]
      have := refreshNixieVals_targets { s with mode := ((s.mode + 1) % 256) % 3 }
        (Nat.mod_lt _ (by decide))
      rw [this, refreshNixieVals_frame]
    have hp := loop_poll_targets (loop_buttons rose s) (by rw [hmode]; omega) ht
    rw [hmode, hdt, hrtc] at hp
    have htl := loop_tail_frame (loop_poll (loop_buttons rose s))
    have e1 : targets (loop rose s) = targets (loop_poll (loop_buttons rose s)) := by
      unfold targets loop
      rw [htl.2.2.2]
    have e2 : (loop rose s).dt = (loop_poll (loop_buttons rose s)).dt := htl.2.1
    rw [e1, e2]
    refine ⟨hp.1, hp.2, ?_⟩
    intro hfix
    rcases hp.2 with h | h
    · rw [← h]; exact hp.1
    · rw [hfix] at h; rw [← h]; exact hp.1

theorem target_derivation_table_witness :
    (sample.mode = SHOW_TIME ∧ sample_date.mode = SHOW_DATE ∧ mode_edge 0 = true ∧
      sample.mode < 3 ∧ sample.rtc = sample.dt) ∧
    targets (refreshNixieVals sample) =
      [sample.dt.hour / 10, sample.dt.hour % 10, sample.dt.minute / 10,
        sample.dt.minute % 10] ∧
    targets (refreshNixieVals sample_date) =
      [sample_date.dt.day / 10, sample_date.dt.day % 10, sample_date.dt.month / 10,
        sample_date.dt.month % 10] ∧
    targets (loop mode_edge sample) = target_table ((sample.mode + 1) % 3) sample.dt :=
  ⟨by decide, (target_derivation_table sample).1 (by decide),
    (target_derivation_table sample_date).2.1 (by decide),
    ((target_derivation_table sample).2.2 mode_edge (by decide) (by decide)).2.2 (by decide)⟩

/-! ## Target digits: properties -/

/-- C11: in mode ShowYear, for every clock year y, `refreshNixieVals` sets the
target digits to 2, 0, (y mod 1000) div 10, y mod 10; for y = 2024 these are
2, 0, 2, 4; and for every y in 2000..2099 the four digits read as the decimal
number y. -/
theorem year_digit_derivation (s : State) (hmode : s.mode = SHOW_YEAR) :
    targets (refreshNixieVals s) = [2, 0, s.dt.year % 1000 / 10, s.dt.year % 10] ∧
    (s.dt.year = 2024 → targets (refreshNixieVals s) = [2, 0, 2, 4]) ∧
    (2000 ≤ s.dt.year → s.dt.year ≤ 2099 →
      1000 * (refreshNixieVals s).nixie_set 0 + 100 * (refreshNixieVals s).nixie_set 1 +
        10 * (refreshNixieVals s).nixie_set 2 + (refreshNixieVals s).nixie_set 3 =
      s.dt.year) := by
  have ht : targets (refreshNixieVals s) =
      [2, 0, s.dt.year % 1000 / 10, s.dt.year % 10] := by
    rw [refreshNixieVals_targets s (by rw [hmode]; decide), hmode]
    rfl
  refine ⟨ht, ?_, ?_⟩
  · intro hy
    rw [ht, hy]
  · intro hlo hhi
    have h4 : List.range N_NIXIES = [0, 1, 2, 3] := by decide
    unfold targets at ht
    rw [h4] at ht
    simp only [List.map_cons, List.map_nil, List.cons.injEq, and_true] at ht
    obtain ⟨h0, h1, h2, h3⟩ := ht
    rw [h0, h1, h2, h3]
    omega

theorem year_digit_derivation_witness :
    (sample_year.mode = SHOW_YEAR ∧ sample_year.dt.year = 2024 ∧
      2000 ≤ sample_year.dt.year ∧ sample_year.dt.year ≤ 2099) ∧
    targets (refreshNixieVals sample_year) = [2, 0, 2, 4] ∧
    1000 * (refreshNixieVals sample_year).nixie_set 0 +
        100 * (refreshNixieVals sample_year).nixie_set 1 +
        10 * (refreshNixieVals sample_year).nixie_set 2 +
        (refreshNixieVals sample_year).nixie_set 3 =
      sample_year.dt.year :=
  ⟨by decide, (year_digit_derivation sample_year (by decide)).2.1 (by decide),
    (year_digit_derivation sample_year (by decide)).2.2 (by decide) (by decide)⟩

/-- C12, the claim as stated fails: in mode ShowYear with the year 2100 and all
other fields in their calendar ranges, the third target digit becomes 10. -/
theorem year_2100_target_not_digit :
    sample_2100.mode = SHOW_YEAR ∧
    (1 ≤ sample_2100.dt.month ∧ sample_2100.dt.month ≤ 12) ∧
    (1 ≤ sample_2100.dt.day ∧ sample_2100.dt.day ≤ 31) ∧
    sample_2100.dt.hour < 24 ∧ sample_2100.dt.minute < 60 ∧
    sample_2100.dt.year < 65536 ∧
    (refreshNixieVals sample_2100).nixie_set 2 = 10 ∧
    ¬ (∀ i, i < N_NIXIES → (refreshNixieVals sample_2100).nixie_set i < 10) := by
  decide

/-- C12, amended: for every mode in 0..2 and every clock reading with month in
1..12, day in 1..31, hour in 0..23 and minute in 0..59, each of the four target
digits is in 0..9 after `refreshNixieVals`: in the modes ShowTime and ShowDate
for every year, and in mode ShowYear for every year whose remainder modulo 1000
is below 100 (every year in 2000..2099 is one); in mode ShowYear the third
target digit is in 0..9 for such years only. -/
theorem refreshNixieVals_digits (s : State) (hmode : s.mode < 3)
    (hmonth : 1 ≤ s.dt.month ∧ s.dt.month ≤ 12) (hday : 1 ≤ s.dt.day ∧ s.dt.day ≤ 31)
    (hhour : s.dt.hour < 24) (hmin : s.dt.minute < 60) :
    ((s.mode = SHOW_YEAR → s.dt.year % 1000 < 100) →
      ∀ i, i < N_NIXIES → (refreshNixieVals s).nixie_set i < 10) ∧
    (s.mode ≠ SHOW_YEAR → ∀ i, i < N_NIXIES → (refreshNixieVals s).nixie_set i < 10) ∧
    (2000 ≤ s.dt.year → s.dt.year ≤ 2099 →
      ∀ i, i < N_NIXIES → (refreshNixieVals s).nixie_set i < 10) ∧
    (s.mode = SHOW_YEAR →
      ((refreshNixieVals s).nixie_set 2 < 10 ↔ s.dt.year % 1000 < 100)) := by
  have key : (s.mode = SHOW_YEAR → s.dt.year % 1000 < 100) →
      ∀ i, i < N_NIXIES → (refreshNixieVals s).nixie_set i < 10 := by
    intro hyear i hi
    unfold N_NIXIES at hi
    unfold refreshNixieVals
    unfold SHOW_YEAR at hyear
    generalize s.mode = m at hmode hyear
    interval_cases m
    · interval_cases i <;> simp [SHOW_TIME, Function.update] <;> omega
    · interval_cases i <;> simp [SHOW_TIME, SHOW_DATE, Function.update] <;> omega
    · have hy := hyear rfl
      interval_cases i <;> simp [SHOW_TIME, SHOW_DATE, SHOW_YEAR, Function.update] <;> omega
  refine ⟨key, fun hne => key (fun h => absurd h hne),
    fun hlo hhi => key (fun _ => by omega), ?_⟩
  intro hy
  unfold refreshNixieVals
  rw [hy]
  simp [SHOW_TIME, SHOW_DATE, SHOW_YEAR, Function.update]
  omega

theorem refreshNixieVals_digits_witness :
    (sample_year.mode < 3 ∧ (1 ≤ sample_year.dt.month ∧ sample_year.dt.month ≤ 12) ∧
      (1 ≤ sample_year.dt.day ∧ sample_year.dt.day ≤ 31) ∧ sample_year.dt.hour < 24 ∧
      sample_year.dt.minute < 60 ∧
      (sample_year.mode = SHOW_YEAR → sample_year.dt.year % 1000 < 100) ∧
      sample_time_2100.mode < 3 ∧
      (1 ≤ sample_time_2100.dt.month ∧ sample_time_2100.dt.month ≤ 12) ∧
      (1 ≤ sample_time_2100.dt.day ∧ sample_time_2100.dt.day ≤ 31) ∧
      sample_time_2100.dt.hour < 24 ∧ sample_time_2100.dt.minute < 60 ∧
      sample_time_2100.mode ≠ SHOW_YEAR ∧ sample_time_2100.dt.year = 2100) ∧
    (∀ i, i < N_NIXIES → (refreshNixieVals sample_year).nixie_set i < 10) ∧
    (∀ i, i < N_NIXIES → (refreshNixieVals sample_time_2100).nixie_set i < 10) :=
  ⟨by decide,
    (refreshNixieVals_digits sample_year (by decide) (by decide) (by decide) (by decide)
      (by decide)).1 (by decide),
    (refreshNixieVals_digits sample_time_2100 (by decide) (by decide) (by decide) (by decide)
      (by decide)).2.1 (by decide)⟩

/-! ## Interrupt handler and indicator: lemmas -/

/-- The function `adjustTime` writes `dt` and the clock device only. -/
theorem adjustTime_frame (v : Int) (s : State) :
    adjustTime v s = { s with dt := s.rtc, rtc := (adjustTime v s).rtc } := rfl

/-- The button chain and the clock poll of `loop()` leave the pins, the
last-seen second, the "animate now" flag and the displayed digits alone. -/
theorem loop_head_frame (rose : Nat → Bool) (s : State) :
    (loop_poll (loop_buttons rose s)).pins = s.pins ∧
    (loop_poll (loop_buttons rose s)).cur_sec = s.cur_sec ∧
    (loop_poll (loop_buttons rose s)).animation_step = s.animation_step ∧
    (loop_poll (loop_buttons rose s)).nixie_val = s.nixie_val := by
  have hb : (loop_buttons rose s).pins = s.pins ∧ (loop_buttons rose s).cur_sec = s.cur_sec ∧
      (loop_buttons rose s).animation_step = s.animation_step ∧
      (loop_buttons rose s).nixie_val = s.nixie_val := by
    unfold loop_buttons
    split_ifs
    · rw [refreshNixieVals_frame]; exact ⟨rfl, rfl, rfl, rfl⟩
    · rw [refreshNixieVals_frame, adjustTime_frame]; exact ⟨rfl, rfl, rfl, rfl⟩
    · rw [refreshNixieVals_frame, adjustTime_frame]; exact ⟨rfl, rfl, rfl, rfl⟩
    · exact ⟨rfl, rfl, rfl, rfl⟩
  have hp : ∀ t : State, (loop_poll t).pins = t.pins ∧ (loop_poll t).cur_sec = t.cur_sec ∧
      (loop_poll t).animation_step = t.animation_step ∧
      (loop_poll t).nixie_val = t.nixie_val := by
    intro t
    unfold loop_poll
    dsimp only
    split_ifs
    · rw [refreshNixieVals_frame]; exact ⟨rfl, rfl, rfl, rfl⟩
    · exact ⟨rfl, rfl, rfl, rfl⟩
    · exact ⟨rfl, rfl, rfl, rfl⟩
  obtain ⟨h1, h2, h3, h4⟩ := hp (loop_buttons rose s)
  obtain ⟨b1, b2, b3, b4⟩ := hb
  exact ⟨h1.trans b1, h2.trans b2, h3.trans b3, h4.trans b4⟩

theorem loop_animate_frame (s : State) :
    (loop_animate s).pins = s.pins ∧ (loop_animate s).mode = s.mode ∧
    (loop_animate s).cur_sec = s.cur_sec ∧ (loop_animate s).dt = s.dt := by
  unfold loop_animate
  split_ifs
  · rw [animate_frame]; exact ⟨rfl, rfl, rfl, rfl⟩
  · exact ⟨rfl, rfl, rfl, rfl⟩

theorem digitalWrite_same (pins : Nat → Nat) (pin val : Nat) :
    digitalWrite pins pin val pin = if val = 0 then LOW else HIGH := by
  unfold digitalWrite
  rw [Function.update_same]

theorem loop_indicator_pins (s : State) :
    (s.mode = SHOW_DATE → (loop_indicator s).pins DECIMAL = HIGH) ∧
    (s.mode = SHOW_YEAR → (loop_indicator s).pins DECIMAL = LOW) ∧
    (s.mode = SHOW_TIME → (loop_indicator s).pins = s.pins) ∧
    (loop_indicator s).mode = s.mode ∧ (loop_indicator s).cur_sec = s.cur_sec ∧
    (loop_indicator s).dt = s.dt ∧ (loop_indicator s).nixie_val = s.nixie_val ∧
    (loop_indicator s).nixie_set = s.nixie_set ∧
    (loop_indicator s).animation_step = s.animation_step := by
  unfold loop_indicator
  split_ifs with h1 h2
  · refine ⟨fun _ => ?_, fun h => ?_, fun h => ?_, rfl, rfl, rfl, rfl, rfl, rfl⟩
    · show digitalWrite s.pins DECIMAL HIGH DECIMAL = HIGH
      rw [digitalWrite_same]; rfl
    · rw [h] at h1; exact absurd h1 (by decide)
    · rw [h] at h1; exact absurd h1 (by decide)
  · refine ⟨fun h => absurd h h1, fun _ => ?_, fun h => ?_, rfl, rfl, rfl, rfl, rfl, rfl⟩
    · show digitalWrite s.pins DECIMAL LOW DECIMAL = LOW
      rw [digitalWrite_same]; rfl
    · rw [h] at h2; exact absurd h2 (by decide)
  · exact ⟨fun h => absurd h h1, fun h => absurd h h2, fun _ => rfl, rfl, rfl, rfl, rfl, rfl,
      rfl⟩

theorem loop_second_frame (s : State) :
    (loop_second s).mode = s.mode ∧ (loop_second s).dt = s.dt ∧
    (loop_second s).cur_sec = s.dt.second ∧ (loop_second s).nixie_val = s.nixie_val ∧
    (loop_second s).nixie_set = s.nixie_set ∧
    (loop_second s).animation_step = s.animation_step := by
  unfold loop_second
  dsimp only
  split_ifs with h1 h2
  · exact ⟨rfl, rfl, rfl, rfl, rfl, rfl⟩
  · exact ⟨rfl, rfl, rfl, rfl, rfl, rfl⟩
  · exact ⟨rfl, rfl, (not_not.mp h1).symm, rfl, rfl, rfl⟩

theorem loop_second_pins (s : State) (hmode : s.mode = SHOW_TIME) :
    (s.dt.second = s.cur_sec → (loop_second s).pins = s.pins) ∧
    (s.dt.second ≠ s.cur_sec → (loop_second s).pins DECIMAL = second_level s.dt.second) := by
  unfold loop_second
  dsimp only
  constructor
  · intro h
    rw [if_neg (not_not.mpr h)]
  · intro h
    rw [if_pos h, if_pos hmode]
    show digitalWrite s.pins DECIMAL (s.dt.second % 2) DECIMAL = second_level s.dt.second
    rw [digitalWrite_same]
    rfl

/-- One tick of the interrupt handler on the tick sub-counter and the flag. -/
theorem ISR_count (pf : Platform) (s : State) (hc : s.count ≤ animation_speed) :
    (ISR pf s).count = (s.count + 1) % (animation_speed + 1) ∧
    (ISR pf s).animation_step = (if s.count = animation_speed then 1 else s.animation_step) := by
  unfold animation_speed at *
  unfold ISR updateNixies
  dsimp only
  unfold animation_speed
  by_cases h : s.count = 10
  · rw [if_pos (by omega), if_pos h]
    constructor
    · show 0 = (s.count + 1) % (10 + 1)
      omega
    · rfl
  · rw [if_neg (by omega), if_neg h]
    constructor
    · show (s.count + 1) % 256 = (s.count + 1) % (10 + 1)
      omega
    · rfl

/-- The tick sub-counter after `n` ticks: it counts modulo 11. -/
theorem ISR_iterate_count (pf : Platform) (n : Nat) (s : State)
    (hc : s.count ≤ animation_speed) :
    ((ISR pf)^[n] s).count = (s.count + n) % (animation_speed + 1) := by
  induction n with
  | zero =>
    unfold animation_speed at *
    simp only [Function.iterate_zero, id_eq, Nat.add_zero]
    omega
  | succ n ih =>
    have hle : ((ISR pf)^[n] s).count ≤ animation_speed := by
      rw [ih]; unfold animation_speed; omega
    rw [Function.iterate_succ_apply', (ISR_count pf _ hle).1, ih]
    unfold animation_speed
    omega

/-- With the tick sub-counter starting at 0, tick number `n + 1` raises the
flag exactly when `n + 1` is a multiple of 11. -/
theorem ISR_raises_iff (pf : Platform) (n : Nat) (s : State) (hc : s.count = 0) :
    ((ISR pf)^[n] s).count = animation_speed ↔ (n + 1) % (animation_speed + 1) = 0 := by
  rw [ISR_iterate_count pf n s (by rw [hc]; exact Nat.zero_le _), hc]
  unfold animation_speed
  omega

/-! ## Interrupt handler and indicator: properties -/

/-- C13: evaluation of the interrupt handler from a tick sub-counter of 0 and
a clear flag. None of the ticks 1..10 raises the "animate now" flag; tick 11
does and resets the sub-counter; once the foreground loop has cleared the flag,
the next raise is again 11 ticks later, not 10. -/
theorem animation_flag_every_eleventh_tick :
    sample_reset.count = 0 ∧ sample_reset.animation_step = 0 ∧
    (∀ n, n ≤ 10 → ((ISR uno)^[n] sample_reset).animation_step = 0) ∧
    ((ISR uno)^[11] sample_reset).animation_step = 1 ∧
    ((ISR uno)^[11] sample_reset).count = 0 ∧
    (∀ n, n ≤ 10 →
      ((ISR uno)^[n] (loop_animate ((ISR uno)^[11] sample_reset))).animation_step = 0) ∧
    ((ISR uno)^[11] (loop_animate ((ISR uno)^[11] sample_reset))).animation_step = 1 := by
  decide

/-- C14: after every iteration of `loop()` that ends in mode ShowDate the
indicator output `DECIMAL` is `HIGH`, and after every iteration that ends in
mode ShowYear it is `LOW`, whatever the buttons, the clock reading, the
last-seen second and the previous level of the indicator are. -/
theorem indicator_forced (rose : Nat → Bool) (s : State) :
    ((loop rose s).mode = SHOW_DATE → (loop rose s).pins DECIMAL = HIGH) ∧
    ((loop rose s).mode = SHOW_YEAR → (loop rose s).pins DECIMAL = LOW) := by
  have ha := loop_animate_frame (loop_indicator (loop_second (loop_poll (loop_buttons rose s))))
  have hi := loop_indicator_pins (loop_second (loop_poll (loop_buttons rose s)))
  unfold loop
  rw [ha.1, ha.2.1, hi.2.2.2.1]
  exact ⟨hi.1, hi.2.1⟩

theorem indicator_forced_witness :
    ((loop no_edge sample_date).mode = SHOW_DATE ∧ (loop mode_edge sample_date).mode = SHOW_YEAR) ∧
    (loop no_edge sample_date).pins DECIMAL = HIGH ∧
    (loop mode_edge sample_date).pins DECIMAL = LOW :=
  ⟨by decide, (indicator_forced no_edge sample_date).1 (by decide),
    (indicator_forced mode_edge sample_date).2 (by decide)⟩

/-- C15, the claim as stated fails, on a run from power-on: the clock poll of
the first iteration sees second 55 and sets the indicator `HIGH`; three mode
edges lead through ShowDate and ShowYear, which forces the indicator `LOW`,
back to ShowTime; when the next clock poll is due the clock has reached second
56. That iteration starts in mode ShowTime with the last-known second equal to
the last-seen second 55, its poll reads second 56, so one second has elapsed,
and the indicator is `LOW` before and after it: it does not change to the
opposite level. -/
theorem indicator_not_toggled :
    (loop no_edge (power_on ⟨2024, 10, 22, 12, 34, 55⟩)).pins DECIMAL = HIGH ∧
    trace_time.mode = SHOW_TIME ∧ trace_time.pins DECIMAL = LOW ∧
    trace_entry.mode = SHOW_TIME ∧ trace_entry.cur_sec = 55 ∧
    trace_entry.dt.second = trace_entry.cur_sec ∧
    trace_entry.time_passed = 1 ∧ trace_entry.cnt = 0 ∧
    (loop no_edge trace_entry).mode = SHOW_TIME ∧
    (loop no_edge trace_entry).dt.second = (trace_entry.cur_sec + 1) % 60 ∧
    (loop no_edge trace_entry).dt.second ≠ trace_entry.cur_sec ∧
    (loop no_edge trace_entry).cur_sec = 56 ∧
    (loop no_edge trace_entry).pins DECIMAL = trace_entry.pins DECIMAL ∧
    (loop no_edge trace_entry).pins DECIMAL ≠ opposite (trace_entry.pins DECIMAL) := by
  decide!

/-- C15, amended: for every iteration of `loop()` that ends in mode ShowTime,
if the last-known clock second equals the last-seen second `cur_sec` the
indicator output is left unchanged, and if it differs the indicator output is
set to the parity of the new second (`HIGH` for an odd second, `LOW` for an
even one) and `cur_sec` takes the new second; so when the indicator held the
parity of the last-seen second and one second has elapsed, the indicator
changes to the opposite of its previous level. -/
theorem indicator_follows_second (rose : Nat → Bool) (s : State)
    (hmode : (loop rose s).mode = SHOW_TIME) :
    ((loop rose s).dt.second = s.cur_sec → (loop rose s).pins DECIMAL = s.pins DECIMAL) ∧
    ((loop rose s).dt.second ≠ s.cur_sec →
      (loop rose s).pins DECIMAL = second_level (loop rose s).dt.second) ∧
    (loop rose s).cur_sec = (loop rose s).dt.second ∧
    (s.cur_sec < 60 → s.pins DECIMAL = second_level s.cur_sec →
      (loop rose s).dt.second = (s.cur_sec + 1) % 60 →
      (loop rose s).pins DECIMAL = opposite (s.pins DECIMAL)) := by
  have hh := loop_head_frame rose s
  have hs := loop_second_frame (loop_poll (loop_buttons rose s))
  have hi := loop_indicator_pins (loop_second (loop_poll (loop_buttons rose s)))
  have ha := loop_animate_frame (loop_indicator (loop_second (loop_poll (loop_buttons rose s))))
  have hm : (loop_poll (loop_buttons rose s)).mode = SHOW_TIME := by
    unfold loop at hmode
    rw [ha.2.1, hi.2.2.2.1, hs.1] at hmode
    exact hmode
  have hp := loop_second_pins (loop_poll (loop_buttons rose s)) hm
  have hdt : (loop rose s).dt = (loop_poll (loop_buttons rose s)).dt := by
    unfold loop
    rw [ha.2.2.2, hi.2.2.2.2.2.1, hs.2.1]
  have hpins : (loop rose s).pins = (loop_second (loop_poll (loop_buttons rose s))).pins := by
    unfold loop
    rw [ha.1, hi.2.2.1 (hs.1.trans hm)]
  have hcur : (loop rose s).cur_sec = (loop_poll (loop_buttons rose s)).dt.second := by
    unfold loop
    rw [ha.2.2.1, hi.2.2.2.2.1, hs.2.2.1]
  have e1 : (loop rose s).dt.second = s.cur_sec → (loop rose s).pins DECIMAL = s.pins DECIMAL := by
    intro h
    rw [hdt, ← hh.2.1] at h
    rw [hpins, hp.1 h, hh.1]
  have e2 : (loop rose s).dt.second ≠ s.cur_sec →
      (loop rose s).pins DECIMAL = second_level (loop rose s).dt.second := by
    intro h
    rw [hdt, ← hh.2.1] at h
    rw [hpins, hp.2 h, hdt]
  refine ⟨e1, e2, by rw [hcur, hdt], ?_⟩
  intro hlt hprev hnext
  have hne : (loop rose s).dt.second ≠ s.cur_sec := by rw [hnext]; omega
  rw [e2 hne, hprev, hnext]
  rcases Nat.mod_two_eq_zero_or_one s.cur_sec with h | h
  · have h3 : (s.cur_sec + 1) % 60 % 2 = 1 := by omega
    simp [second_level, opposite, h, h3, LOW, HIGH]
  · have h3 : (s.cur_sec + 1) % 60 % 2 = 0 := by omega
    simp [second_level, opposite, h, h3, LOW, HIGH]

theorem indicator_follows_second_witness :
    ((loop no_edge sample_poll).mode = SHOW_TIME ∧
      sample_poll.dt.second = sample_poll.cur_sec ∧
      (loop no_edge sample_poll).dt.second ≠ sample_poll.cur_sec ∧
      sample_poll.cur_sec < 60 ∧
      sample_poll.pins DECIMAL = second_level sample_poll.cur_sec ∧
      (loop no_edge sample_poll).dt.second = (sample_poll.cur_sec + 1) % 60 ∧
      sample_poll.pins DECIMAL = LOW ∧
      (loop no_edge sample_odd).mode = SHOW_TIME ∧
      (loop no_edge sample_odd).dt.second = sample_odd.cur_sec ∧
      sample_odd.pins DECIMAL ≠ second_level sample_odd.cur_sec) ∧
    (loop no_edge sample_poll).pins DECIMAL =
      second_level (loop no_edge sample_poll).dt.second ∧
    (loop no_edge sample_poll).cur_sec = (loop no_edge sample_poll).dt.second ∧
    (loop no_edge sample_poll).pins DECIMAL = opposite (sample_poll.pins DECIMAL) ∧
    (loop no_edge sample_poll).pins DECIMAL = HIGH ∧
    (loop no_edge sample_odd).pins DECIMAL = sample_odd.pins DECIMAL :=
  ⟨by decide, (indicator_follows_second no_edge sample_poll (by decide)).2.1 (by decide),
    (indicator_follows_second no_edge sample_poll (by decide)).2.2.1,
    (indicator_follows_second no_edge sample_poll (by decide)).2.2.2 (by decide) (by decide)
      (by decide),
    by decide,
    (indicator_follows_second no_edge sample_odd (by decide)).1 (by decide)⟩

/-- The block `if (animation_step)` of `loop()`: nothing happens with the flag
clear; with the flag set `animate` runs and the flag is cleared. -/
theorem loop_animate_step (s : State) :
    (s.animation_step = 0 → loop_animate s = s) ∧
    (s.animation_step ≠ 0 → (loop_animate s).nixie_val = (animate s).nixie_val ∧
      (loop_animate s).nixie_set = s.nixie_set) ∧
    (loop_animate s).animation_step = 0 := by
  unfold loop_animate
  refine ⟨?_, ?_, ?_⟩
  · intro h
    rw [if_neg (not_not.mpr h)]
  · intro h
    rw [if_pos h]
    exact ⟨rfl, animate_nixie_set s⟩
  · by_cases h : s.animation_step = 0
    · rw [if_neg (not_not.mpr h)]
      exact h
    · rw [if_pos h]


/-- C16, the claim as stated fails: with the "animate now" flag set, an
iteration of `loop()` in which no button rose changes the displayed digit of
tube 0 from 3 to 8, one ring step towards its target 1. -/
theorem loop_writes_displayed_digit :
    sample_step.animation_step = 1 ∧ sample_step.nixie_val 0 = 3 ∧
    (loop no_edge sample_step).nixie_val 0 = 8 ∧
    (loop no_edge sample_step).nixie_val 0 ≠ sample_step.nixie_val 0 ∧
    (ISR uno sample_step).nixie_val 0 = sample_step.nixie_val 0 := by
  decide

/-- C16, amended: the displayed digits have a single writer, the foreground
`loop()`, which writes them only through `animate()`: the periodic interrupt
handler never changes a displayed digit; an iteration of `loop()` with the
"animate now" flag clear changes no displayed digit, whatever the buttons and
the clock reading are; and an iteration with the flag set moves every displayed
digit by the animator step towards its target and clears the flag. -/
theorem displayed_digits_single_writer (pf : Platform) (rose : Nat → Bool) (s : State) :
    (ISR pf s).nixie_val = s.nixie_val ∧
    (s.animation_step = 0 → (loop rose s).nixie_val = s.nixie_val) ∧
    (s.animation_step ≠ 0 → ∀ i, i < N_NIXIES →
      (loop rose s).nixie_val i =
        animate_digit (s.nixie_val i) ((loop rose s).nixie_set i)) ∧
    (loop rose s).animation_step = 0 := by
  have hh := loop_head_frame rose s
  have hs := loop_second_frame (loop_poll (loop_buttons rose s))
  have hi := loop_indicator_pins (loop_second (loop_poll (loop_buttons rose s)))
  have hstep : (loop_indicator (loop_second (loop_poll (loop_buttons rose s)))).animation_step =
      s.animation_step := by
    rw [hi.2.2.2.2.2.2.2.2, hs.2.2.2.2.2, hh.2.2.1]
  have hval : (loop_indicator (loop_second (loop_poll (loop_buttons rose s)))).nixie_val =
      s.nixie_val := by
    rw [hi.2.2.2.2.2.2.1, hs.2.2.2.1, hh.2.2.2]
  have hl : loop rose s =
      loop_animate (loop_indicator (loop_second (loop_poll (loop_buttons rose s)))) := rfl
  have ha := loop_animate_step (loop_indicator (loop_second (loop_poll (loop_buttons rose s))))
  rw [hl]
  rw [hstep] at ha
  refine ⟨?_, ?_, ?_, ha.2.2⟩
  · unfold ISR updateNixies
    dsimp only
    split_ifs <;> rfl
  · intro h0
    rw [ha.1 h0, hval]
  · intro h1 i hi4
    rw [(ha.2.1 h1).1, (ha.2.1 h1).2, animate_nixie_val _ i hi4, hval]

theorem displayed_digits_single_writer_witness :
    (sample.animation_step = 0 ∧ sample_step.animation_step ≠ 0 ∧ 0 < N_NIXIES) ∧
    (loop up_edge sample).nixie_val = sample.nixie_val ∧
    (loop no_edge sample_step).nixie_val 0 =
      animate_digit (sample_step.nixie_val 0) ((loop no_edge sample_step).nixie_set 0) :=
  ⟨by decide, (displayed_digits_single_writer uno up_edge sample).2.1 (by decide),
    (displayed_digits_single_writer uno no_edge sample_step).2.2.1 (by decide) 0 (by decide)⟩

/-! ## The decoder bus and the ring -/

theorem wired_bits_inj (pf : Platform) (hw : pf.wired) :
    ∀ i, i < 4 → ∀ j, j < 4 → i ≠ j → bits pf i ≠ bits pf j := by
  unfold Platform.wired Platform.outputs at hw
  simp only [List.nodup_cons, List.mem_cons, List.mem_singleton, not_or] at hw
  obtain ⟨-, -, -, -, ⟨hab, hac, had, -⟩, ⟨hbc, hbd, -⟩, ⟨hcd, -⟩, -⟩ := hw
  intro i hi j hj hij
  interval_cases i <;> interval_cases j <;>
    simp only [bits, List.getD_cons_zero, List.getD_cons_succ] <;>
    first
      | exact absurd rfl hij
      | exact hab | exact hac | exact had | exact hbc | exact hbd | exact hcd
      | exact Ne.symm hab | exact Ne.symm hac | exact Ne.symm had
      | exact Ne.symm hbc | exact Ne.symm hbd | exact Ne.symm hcd

/-- The function `setNixieNum` drives bus line `i` to the level of
`nums[num][i]`. -/
theorem setNixieNum_bits (pf : Platform) (hw : pf.wired) (pins : Nat → Nat) (num i : Nat)
    (hi : i < 4) :
    setNixieNum pf pins num (bits pf i) = if nums_at pf num i = 0 then LOW else HIGH := by
  have h4 : List.range 4 = [0, 1, 2, 3] := by decide
  have hne := wired_bits_inj pf hw
  have h01 := hne 0 (by omega) 1 (by omega) (by omega)
  have h02 := hne 0 (by omega) 2 (by omega) (by omega)
  have h03 := hne 0 (by omega) 3 (by omega) (by omega)
  have h12 := hne 1 (by omega) 2 (by omega) (by omega)
  have h13 := hne 1 (by omega) 3 (by omega) (by omega)
  have h23 := hne 2 (by omega) 3 (by omega) (by omega)
  unfold setNixieNum
  rw [h4]
  simp only [List.foldl_cons, List.foldl_nil, setNixieNum_bit, digitalWrite]
  interval_cases i
  · rw [Function.update_noteq h03, Function.update_noteq h02, Function.update_noteq h01,
      Function.update_same]
  · rw [Function.update_noteq h13, Function.update_noteq h12, Function.update_same]
  · rw [Function.update_noteq h23, Function.update_same]
  · rw [Function.update_same]

theorem updateNixies_bits (pf : Platform) (hw : pf.wired) (s : State) (i : Nat) (hi : i < 4)
    (hp : s.active_nixie < 4) :
    (updateNixies pf s).pins (bits pf i) =
      if nums_at pf (s.nixie_val s.active_nixie) i = 0 then LOW else HIGH := by
  unfold updateNixies
  dsimp only
  unfold digitalWrite
  rw [Function.update_noteq (wired_bits_ne_nixies pf hw i hi _ hp),
    setNixieNum_bits pf hw _ _ i hi]

theorem nums_at_digit (pf : Platform) : ∀ d, d < 10 → ∀ i, i < 4 →
    nums_at pf d i = (nums.getD d []).getD i 0 ∧
    (if nums_at pf d i = 0 then LOW else HIGH) = nums_at pf d i := by
  intro d hd i hi
  interval_cases d <;> interval_cases i <;> exact ⟨rfl, rfl⟩

/-- C17: on a platform whose nine outputs are separate pins, for every state
with `active_nixie` = p in 0..3 and displayed digit `nixie_val[p]` = d in 0..9,
after `updateNixies` the bus lines `bits[0..3]` (BIT_A..BIT_D) hold `nums[d]`,
read as the binary number A + 2B + 4C + 8D they give d, and tube p is the
selected one; the encoder `nums` is injective on 0..9. -/
theorem bus_carries_digit (pf : Platform) (hw : pf.wired) (s : State)
    (hp : s.active_nixie < 4) (hd : s.nixie_val s.active_nixie < 10) :
    (∀ i, i < 4 → (updateNixies pf s).pins (bits pf i) =
      (nums.getD (s.nixie_val s.active_nixie) []).getD i 0) ∧
    bus_value pf (updateNixies pf s) = s.nixie_val s.active_nixie ∧
    selected_tubes (updateNixies pf s) = [s.active_nixie] ∧
    (∀ d1, d1 < 10 → ∀ d2, d2 < 10 → nums.getD d1 [] = nums.getD d2 [] → d1 = d2) := by
  have hb : ∀ i, i < 4 → (updateNixies pf s).pins (bits pf i) =
      (nums.getD (s.nixie_val s.active_nixie) []).getD i 0 := by
    intro i hi
    rw [updateNixies_bits pf hw s i hi hp, (nums_at_digit pf _ hd i hi).2,
      (nums_at_digit pf _ hd i hi).1]
  refine ⟨hb, ?_, updateNixies_selected pf hw s hp, by decide⟩
  have h0 := hb 0 (by omega)
  have h1 := hb 1 (by omega)
  have h2 := hb 2 (by omega)
  have h3 := hb 3 (by omega)
  simp only [bits, List.getD_cons_zero, List.getD_cons_succ] at h0 h1 h2 h3
  unfold bus_value
  rw [h0, h1, h2, h3]
  generalize s.nixie_val s.active_nixie = d at hd
  interval_cases d <;> rfl

theorem bus_carries_digit_witness :
    (uno.wired ∧ sample.active_nixie < 4 ∧ sample.nixie_val sample.active_nixie < 10) ∧
    ((∀ i, i < 4 → (updateNixies uno sample).pins (bits uno i) =
      (nums.getD (sample.nixie_val sample.active_nixie) []).getD i 0) ∧
    bus_value uno (updateNixies uno sample) = sample.nixie_val sample.active_nixie ∧
    selected_tubes (updateNixies uno sample) = [sample.active_nixie] ∧
    (∀ d1, d1 < 10 → ∀ d2, d2 < 10 → nums.getD d1 [] = nums.getD d2 [] → d1 = d2)) :=
  ⟨by decide, bus_carries_digit uno (by decide) sample (by decide) (by decide)⟩

/-- C18: the ring `nixie_level` has no duplicate entries and contains each of
0..10 exactly once; for every ring position i in 0..10,
`get_level(nixie_level[i])` = i, and for every value v in 0..10,
`nixie_level[get_level(v)]` = v; every digit 0..9 is found at a position in
1..10, and among 0..10 only the blank marker 10 is at position 0. -/
theorem ring_lookup_inverse :
    nixie_level.Nodup ∧ nixie_level.length = sizeof_nixie_level ∧
    (∀ v, v < 11 → nixie_level.count v = 1) ∧
    (∀ i, i < 11 → get_level (nixie_level_at i) = i) ∧
    (∀ v, v < 11 → nixie_level_at (get_level v) = v) ∧
    (∀ d, d < 10 → 1 ≤ get_level d ∧ get_level d ≤ 10) ∧
    nixie_level_at 0 = 10 ∧
    (∀ v, v < 11 → (get_level v = 0 ↔ v = 10)) := by
  decide

theorem ring_lookup_inverse_witness :
    (6 < 11 ∧ 7 < 10) ∧ get_level (nixie_level_at 6) = 6 ∧
    nixie_level_at (get_level 6) = 6 ∧ (1 ≤ get_level 7 ∧ get_level 7 ≤ 10) :=
  ⟨by decide, ring_lookup_inverse.2.2.2.1 6 (by decide),
    ring_lookup_inverse.2.2.2.2.1 6 (by decide),
    ring_lookup_inverse.2.2.2.2.2.1 7 (by decide)⟩

/-! ## Time adjustment: algebra and frame -/

/-- What `adjustTime(1)` writes to the clock device. -/
theorem adjustTime_rtc_up (s : State) (hh : s.rtc.hour < 24) (hm : s.rtc.minute < 60) :
    (adjustTime 1 s).rtc =
      ⟨s.rtc.year, s.rtc.month, s.rtc.day,
        if s.rtc.minute = 59 then (s.rtc.hour + 1) % 24 else s.rtc.hour,
        (s.rtc.minute + 1) % 60, 0⟩ := by
  have e1 := modAdd_minute_up _ hm
  have e2 := modAdd_hour_up _ hh
  simp only [adjustTime, rtc_adjust, rtc_now, e1, e2]
  split_ifs <;> simp_all

/-- What `adjustTime(-1)` writes to the clock device. -/
theorem adjustTime_rtc_down (s : State) (hh : s.rtc.hour < 24) (hm : s.rtc.minute < 60) :
    (adjustTime (-1) s).rtc =
      ⟨s.rtc.year, s.rtc.month, s.rtc.day,
        if s.rtc.minute = 0 then (s.rtc.hour + 23) % 24 else s.rtc.hour,
        (s.rtc.minute + 59) % 60, 0⟩ := by
  have e1 := modAdd_minute_down _ hm
  have e2 := modAdd_hour_down _ hh
  simp only [adjustTime, rtc_adjust, rtc_now, e1, e2]
  split_ifs <;> simp_all

/-- C19: for every clock reading with hour in 0..23 and minute in 0..59, the
clock not advancing in between, `adjustTime(1)` followed by `adjustTime(-1)`,
and likewise `adjustTime(-1)` followed by `adjustTime(1)`, leaves the clock
device with the original date, hour and minute and with second = 0, also
across the 23:59/00:00 boundary. -/
theorem up_down_inverse (s : State) (hh : s.rtc.hour < 24) (hm : s.rtc.minute < 60) :
    (adjustTime (-1) (adjustTime 1 s)).rtc = { s.rtc with second := 0 } ∧
    (adjustTime 1 (adjustTime (-1) s)).rtc = { s.rtc with second := 0 } := by
  have hu := adjustTime_rtc_up s hh hm
  have hd := adjustTime_rtc_down s hh hm
  constructor
  · have hh2 : (adjustTime 1 s).rtc.hour < 24 := by
      rw [hu]; dsimp only; split_ifs <;> omega
    have hm2 : (adjustTime 1 s).rtc.minute < 60 := by
      rw [hu]; dsimp only; omega
    rw [adjustTime_rtc_down _ hh2 hm2, hu]
    simp only [DateTime.mk.injEq, true_and, and_true]
    constructor
    · split_ifs <;> omega
    · omega
  · have hh2 : (adjustTime (-1) s).rtc.hour < 24 := by
      rw [hd]; dsimp only; split_ifs <;> omega
    have hm2 : (adjustTime (-1) s).rtc.minute < 60 := by
      rw [hd]; dsimp only; omega
    rw [adjustTime_rtc_up _ hh2 hm2, hd]
    simp only [DateTime.mk.injEq, true_and, and_true]
    constructor
    · split_ifs <;> omega
    · omega

theorem up_down_inverse_witness :
    (sample_late.rtc.hour < 24 ∧ sample_late.rtc.minute < 60) ∧
    ((adjustTime (-1) (adjustTime 1 sample_late)).rtc = { sample_late.rtc with second := 0 } ∧
    (adjustTime 1 (adjustTime (-1) sample_late)).rtc = { sample_late.rtc with second := 0 }) :=
  ⟨by decide, up_down_inverse sample_late (by decide) (by decide)⟩

/-- C20: for every clock reading and every argument, in particular 1 and -1,
`adjustTime` writes back exactly the year, month and day that were read; this
is so when the hour wraps across midnight too: Up at 23:59 gives 00:00:00 on
the same date, Down at 00:00 gives 23:59:00 on the same date; only hour,
minute and second can differ from the reading. -/
theorem adjustTime_keeps_date (s : State) :
    (∀ v : Int, (adjustTime v s).rtc.year = s.rtc.year ∧
      (adjustTime v s).rtc.month = s.rtc.month ∧ (adjustTime v s).rtc.day = s.rtc.day) ∧
    (s.rtc.hour = 23 → s.rtc.minute = 59 →
      (adjustTime 1 s).rtc = ⟨s.rtc.year, s.rtc.month, s.rtc.day, 0, 0, 0⟩) ∧
    (s.rtc.hour = 0 → s.rtc.minute = 0 →
      (adjustTime (-1) s).rtc = ⟨s.rtc.year, s.rtc.month, s.rtc.day, 23, 59, 0⟩) := by
  refine ⟨fun v => ⟨rfl, rfl, rfl⟩, ?_, ?_⟩
  · intro h23 h59
    rw [adjustTime_rtc_up s (by omega) (by omega), if_pos h59, h23, h59]
  · intro h0 m0
    rw [adjustTime_rtc_down s (by omega) (by omega), if_pos m0, h0, m0]

theorem adjustTime_keeps_date_witness :
    (sample_late.rtc.hour = 23 ∧ sample_late.rtc.minute = 59 ∧
      sample_early.rtc.hour = 0 ∧ sample_early.rtc.minute = 0) ∧
    (adjustTime 1 sample_late).rtc =
      ⟨sample_late.rtc.year, sample_late.rtc.month, sample_late.rtc.day, 0, 0, 0⟩ ∧
    (adjustTime (-1) sample_early).rtc =
      ⟨sample_early.rtc.year, sample_early.rtc.month, sample_early.rtc.day, 23, 59, 0⟩ :=
  ⟨by decide, (adjustTime_keeps_date sample_late).2.1 (by decide) (by decide),
    (adjustTime_keeps_date sample_early).2.2 (by decide) (by decide)⟩

end NixieClock
